import Mathlib

/-!
Shallow embedding of the stock-research dashboard's data pipeline
(`src/app.py`): cache-validity check, fetch-with-retry, indicator
computation (moving averages, RSI) and report synthesis.

Numeric series values are modelled by `PF`, a model of the IEEE
double-precision values that pandas/numpy produce in this code:
a finite value (represented exactly by a rational), the two
infinities, and NaN.  The arithmetic and comparison operations
implement the IEEE rules the Python code relies on (division by
zero yields an infinity or NaN, any comparison with NaN is false,
NaN propagates through arithmetic).  Signed zero is not
distinguished; the code never branches on it.
-/

namespace StockApp

/-- Model of a pandas/numpy float64 value: a finite value (exact
rational), positive or negative infinity, or NaN. -/
inductive PF where
  | real : ℚ → PF
  | pinf : PF
  | ninf : PF
  | nan  : PF
deriving DecidableEq, Repr

/-- IEEE negation. -/
def PF.neg : PF → PF
  | .real a => .real (-a)
  | .pinf => .ninf
  | .ninf => .pinf
  | .nan => .nan

/-- IEEE addition (NaN propagates; opposite infinities give NaN). -/
def PF.add : PF → PF → PF
  | .nan, _ => .nan
  | _, .nan => .nan
  | .real a, .real b => .real (a + b)
  | .real _, .pinf => .pinf
  | .real _, .ninf => .ninf
  | .pinf, .real _ => .pinf
  | .ninf, .real _ => .ninf
  | .pinf, .pinf => .pinf
  | .ninf, .ninf => .ninf
  | .pinf, .ninf => .nan
  | .ninf, .pinf => .nan

/-- IEEE subtraction, `a - b = a + (-b)`. -/
def PF.sub (a b : PF) : PF := PF.add a (PF.neg b)

/-- IEEE multiplication (zero times infinity gives NaN). -/
def PF.mul : PF → PF → PF
  | .nan, _ => .nan
  | _, .nan => .nan
  | .real a, .real b => .real (a * b)
  | .real a, .pinf => if 0 < a then .pinf else if a < 0 then .ninf else .nan
  | .real a, .ninf => if 0 < a then .ninf else if a < 0 then .pinf else .nan
  | .pinf, .real b => if 0 < b then .pinf else if b < 0 then .ninf else .nan
  | .ninf, .real b => if 0 < b then .ninf else if b < 0 then .pinf else .nan
  | .pinf, .pinf => .pinf
  | .ninf, .ninf => .pinf
  | .pinf, .ninf => .ninf
  | .ninf, .pinf => .ninf

/-- IEEE division: a nonzero finite value divided by zero gives a
signed infinity, `0/0` gives NaN, a finite value divided by an
infinity gives zero. -/
def PF.div : PF → PF → PF
  | .nan, _ => .nan
  | _, .nan => .nan
  | .real a, .real b =>
      if b = 0 then (if a = 0 then .nan else if 0 < a then .pinf else .ninf)
      else .real (a / b)
  | .real _, .pinf => .real 0
  | .real _, .ninf => .real 0
  | .pinf, .real b => if b < 0 then .ninf else .pinf
  | .ninf, .real b => if b < 0 then .pinf else .ninf
  | .pinf, .pinf => .nan
  | .pinf, .ninf => .nan
  | .ninf, .pinf => .nan
  | .ninf, .ninf => .nan

/-- IEEE strict greater-than: any comparison involving NaN is false. -/
def PF.gt : PF → PF → Bool
  | .nan, _ => false
  | _, .nan => false
  | .real a, .real b => decide (b < a)
  | .real _, .pinf => false
  | .real _, .ninf => true
  | .pinf, .real _ => true
  | .pinf, .pinf => false
  | .pinf, .ninf => true
  | .ninf, _ => false

/-- IEEE strict less-than. -/
def PF.lt (a b : PF) : Bool := PF.gt b a

/-- The finite value held by a `PF`, if any. -/
def PF.toReal? : PF → Option ℚ
  | .real q => some q
  | _ => none

/-- All elements of the list as finite values, or `none` if any
element is an infinity or NaN (the pandas rolling mean with default
`min_periods` yields NaN as soon as the window holds a NaN). -/
def allReal (l : List PF) : Option (List ℚ) := l.mapM PF.toReal?

/-- The length-`w` window of series values ending at index `i`:
elements at indices `i - w + 1 .. i` (out-of-range reads give NaN;
they never occur at the indices the code evaluates). -/
def windowAt (w : ℕ) (xs : List PF) (i : ℕ) : List PF :=
  (List.range w).map (fun k => xs.getD (i + 1 - w + k) PF.nan)

/-- pandas `Series.rolling(window=w).mean()` at index `i`: NaN while
fewer than `w` observations exist, otherwise the arithmetic mean of
the window, NaN if the window holds any non-finite value. -/
def rollingMeanAt (w : ℕ) (xs : List PF) (i : ℕ) : PF :=
  if i + 1 < w then PF.nan
  else
    match allReal (windowAt w xs i) with
    | some qs => PF.real (qs.sum / (w : ℚ))
    | none => PF.nan

/-- pandas `Series.rolling(window=w).mean()` over a whole series. -/
def rollingMean (w : ℕ) (xs : List PF) : List PF :=
  (List.range xs.length).map (rollingMeanAt w xs)

/-- pandas `Series.diff()` at index `i`: NaN at index 0, otherwise
`xs[i] - xs[i-1]`. -/
def diffAt (xs : List PF) (i : ℕ) : PF :=
  if i = 0 then PF.nan else PF.sub (xs.getD i PF.nan) (xs.getD (i - 1) PF.nan)

/-- pandas `Series.diff()` over a whole series. -/
def diffs (xs : List PF) : List PF :=
  (List.range xs.length).map (diffAt xs)

/-- pandas `Series.max()`: maximum of the finite entries, skipping
NaN, NaN when no finite entry exists. -/
def seriesMax (xs : List PF) : PF :=
  match xs.filterMap PF.toReal? with
  | [] => PF.nan
  | q :: qs => PF.real (qs.foldl max q)

/-- pandas `Series.min()`: minimum of the finite entries, skipping
NaN, NaN when no finite entry exists. -/
def seriesMin (xs : List PF) : PF :=
  match xs.filterMap PF.toReal? with
  | [] => PF.nan
  | q :: qs => PF.real (qs.foldl min q)

/-! ### Configuration (`src/app.py`, module level)

Time is modelled in hours as an exact rational; a cache entry is its
last-written (file modification) time, the cached series is the list
of close prices. -/

/-- `CACHE_TTL_HOURS = 24`. -/
def CACHE_TTL_HOURS : ℚ := 24

/-- `SUPPORTED_STOCKS`: the static symbol-to-display-name registry. -/
def SUPPORTED_STOCKS : List (String × String) :=
  [("RELIANCE.NS", "Reliance Industries"),
   ("TCS.NS", "Tata Consultancy Services"),
   ("INFY.NS", "Infosys"),
   ("HDFCBANK.NS", "HDFC Bank")]

/-- `SUPPORTED_STOCKS.get(symbol, symbol)`: registry lookup falling
back to the raw symbol string. -/
def registryName (symbol : String) : String :=
  match SUPPORTED_STOCKS.lookup symbol with
  | some n => n
  | none => symbol

/-- `is_cache_valid(symbol)` (`src/app.py:73-82`): the cache entry,
when present, carries its last-written time `mtime`; validity is
`now - mtime < timedelta(hours=CACHE_TTL_HOURS)` (strict). -/
def is_cache_valid (entry : Option ℚ) (now : ℚ) : Bool :=
  match entry with
  | none => false
  | some mtime => decide (now - mtime < CACHE_TTL_HOURS)

/-! ### Market data fetcher (`src/app.py:85-122`)

The upstream provider is a function from the attempt index to either
a raised error or a returned series (list of close prices; the retry
logic inspects only emptiness).  The result records the value
returned or the exception propagated, the number of upstream
attempts made, and the cache writes performed (in order), so that
effects can be stated. -/

/-- `max_retries = 3`. -/
def max_retries : ℕ := 3

/-- The `ValueError` message raised on an empty series
(`src/app.py:109`). -/
def noDataMsg (symbol : String) : String :=
  "No data available for " ++ symbol ++ ". Please check the symbol or try again later."

/-- The exception message raised after the final failed attempt
(`src/app.py:122`), carrying the symbol and the attempt count. -/
def failMsg (symbol e : String) : String :=
  "Failed to fetch data for " ++ symbol ++ " after " ++ toString max_retries
    ++ " attempts. Error: " ++ e

/-- Outcome of `fetch_stock_data`: the returned series or propagated
exception message, the number of upstream attempts, and the series
written to the cache (in order). -/
structure FetchResult where
  result : Except String (List ℚ)
  upstreamAttempts : ℕ
  cacheWrites : List (List ℚ)
deriving Repr

/-- The retry loop of `fetch_stock_data` (`src/app.py:97-122`),
entered at attempt index `attempt` with `remaining` attempts left
(the loop runs with `remaining = max_retries` from `attempt = 0`;
`remaining = 0` is never reached).  On the last attempt an empty
series raises `ValueError(noDataMsg)`, which the `except` block
catches and rewraps into `failMsg`; on earlier attempts both an
error and an empty series lead to a 2-second sleep and the next
iteration.  A non-empty series is written to the cache and
returned. -/
def fetchGo (symbol : String) (upstream : ℕ → Except String (List ℚ)) :
    ℕ → ℕ → FetchResult
  | _, 0 => ⟨.error (failMsg symbol ""), 0, []⟩
  | attempt, remaining + 1 =>
    match upstream attempt with
    | .ok df =>
      if df.isEmpty then
        if remaining = 0 then
          ⟨.error (failMsg symbol (noDataMsg symbol)), 1, []⟩
        else
          let r := fetchGo symbol upstream (attempt + 1) remaining
          ⟨r.result, r.upstreamAttempts + 1, r.cacheWrites⟩
      else
        ⟨.ok df, 1, [df]⟩
    | .error e =>
      if remaining = 0 then
        ⟨.error (failMsg symbol e), 1, []⟩
      else
        let r := fetchGo symbol upstream (attempt + 1) remaining
        ⟨r.result, r.upstreamAttempts + 1, r.cacheWrites⟩

/-- `fetch_stock_data(symbol)` (`src/app.py:85-122`): serve a valid
cache entry without touching the upstream, otherwise run the retry
loop.  `cache` is the entry for `symbol` (last-written time and
stored series), `now` the current time. -/
def fetch_stock_data (symbol : String) (cache : Option (ℚ × List ℚ)) (now : ℚ)
    (upstream : ℕ → Except String (List ℚ)) : FetchResult :=
  if is_cache_valid (cache.map Prod.fst) now then
    ⟨.ok ((cache.map Prod.snd).getD []), 0, []⟩
  else
    fetchGo symbol upstream 0 max_retries

/-! ### Indicator engine (`src/app.py:125-142`) -/

/-- The three moving-average columns added by
`calculate_moving_averages`. -/
structure MAFrame where
  ma20 : List PF
  ma50 : List PF
  ma200 : List PF
deriving DecidableEq, Repr

/-- `calculate_moving_averages(df)` (`src/app.py:125-130`):
`df['Close'].rolling(window=w).mean()` for w = 20, 50, 200.  The
input close column is finite-valued (it comes from the provider or
the cache file). -/
def calculate_moving_averages (closes : List ℚ) : MAFrame :=
  ⟨rollingMean 20 (closes.map PF.real),
   rollingMean 50 (closes.map PF.real),
   rollingMean 200 (closes.map PF.real)⟩

/-- `delta.where(delta > 0, 0)` elementwise: keep the delta where it
is strictly positive, else 0.  A NaN delta compares false and is
replaced by 0. -/
def gainOf (d : PF) : PF := if PF.gt d (PF.real 0) then d else PF.real 0

/-- `-delta.where(delta < 0, 0)` elementwise: keep the delta where
strictly negative (else 0), then negate. -/
def lossOf (d : PF) : PF := PF.neg (if PF.lt d (PF.real 0) then d else PF.real 0)

/-- `calculate_rsi(df, period)` at one index (`src/app.py:133-142`):
`rs = gain/loss`, `rsi = 100 - (100 / (1 + rs))` with the rolling
means of the gain and loss series. -/
def rsiAt (closes : List ℚ) (period : ℕ) (i : ℕ) : PF :=
  PF.sub (PF.real 100)
    (PF.div (PF.real 100)
      (PF.add (PF.real 1)
        (PF.div (rollingMeanAt period ((diffs (closes.map PF.real)).map gainOf) i)
                (rollingMeanAt period ((diffs (closes.map PF.real)).map lossOf) i))))

/-- `calculate_rsi(df, period=14)` (`src/app.py:133-142`): the RSI
column over the whole series. -/
def calculate_rsi (closes : List ℚ) (period : ℕ := 14) : List PF :=
  (List.range closes.length).map (rsiAt closes period)

/-- The window of raw (rational) deltas `close[j] - close[j-1]` for
`j = i - period + 1 .. i`, used to state properties of the RSI at
index `i`. -/
def deltaWindow (closes : List ℚ) (period i : ℕ) : List ℚ :=
  (List.range period).map (fun k =>
    closes.getD (i + 1 - period + k) 0 - closes.getD (i - period + k) 0)

/-! ### Metadata resolver (`src/app.py:145-172`) -/

/-- The fields of the upstream `stock.info` dictionary that
`get_stock_metadata` reads; `none` models an absent key (for which
`info.get` supplies the default). -/
structure UpstreamInfo where
  sector : Option String
  industry : Option String
  marketCap : Option ℚ
  trailingPE : Option ℚ
  dividendYield : Option ℚ
  fiftyTwoWeekHigh : Option ℚ
  fiftyTwoWeekLow : Option ℚ
deriving Repr

/-- The metadata record returned by `get_stock_metadata`; `w52_high`
and `w52_low` embed the `'52w_high'` / `'52w_low'` keys. -/
structure Metadata where
  name : String
  sector : String
  industry : String
  market_cap : ℚ
  pe_ratio : ℚ
  dividend_yield : ℚ
  w52_high : ℚ
  w52_low : ℚ
deriving DecidableEq, Repr

/-- `get_stock_metadata(symbol)` (`src/app.py:145-172`): on upstream
success, fields from `info.get(...)` with its defaults; on any
upstream failure (the `except` branch) the fallback record.  The
function is total: no exception reaches the caller. -/
def get_stock_metadata (symbol : String) (upstream : Except String UpstreamInfo) :
    Metadata :=
  match upstream with
  | .ok info =>
    { name := registryName symbol,
      sector := info.sector.getD "N/A",
      industry := info.industry.getD "N/A",
      market_cap := info.marketCap.getD 0,
      pe_ratio := info.trailingPE.getD 0,
      dividend_yield := info.dividendYield.getD 0,
      w52_high := info.fiftyTwoWeekHigh.getD 0,
      w52_low := info.fiftyTwoWeekLow.getD 0 }
  | .error _ =>
    { name := registryName symbol,
      sector := "N/A",
      industry := "N/A",
      market_cap := 0,
      pe_ratio := 0,
      dividend_yield := 0,
      w52_high := 0,
      w52_low := 0 }

/-! ### Report synthesizer (`src/app.py:175-257`)

A row of the indicator frame carries the columns the synthesizer
reads.  The prompt string assembled at `src/app.py:214-233` is
modelled structurally, as the record of the values interpolated into
it (the surrounding literal prose is fixed); the text-generation
backend is a function from that prompt to either a raised error or
the generated text. -/

/-- One row of the indicator frame (the columns
`generate_investment_report` reads). -/
structure BarRow where
  close : PF
  ma20 : PF
  ma50 : PF
  rsi : PF
deriving DecidableEq, Repr

/-- The dummy row used as `getD` default; never read on the paths
the code takes (length is checked first). -/
def dummyRow : BarRow := ⟨PF.nan, PF.nan, PF.nan, PF.nan⟩

/-- The moving-average signal list (`src/app.py:194-203`): one
short-term and one medium-term entry, appended in that order.  An
undefined (NaN) MA compares false under `>` and takes the `else`
("below") branch. -/
def ma_signals (latest : BarRow) : List String :=
  [if PF.gt latest.close latest.ma20 then "above 20-day MA (bullish short-term)"
   else "below 20-day MA (bearish short-term)",
   if PF.gt latest.close latest.ma50 then "above 50-day MA (bullish medium-term)"
   else "below 50-day MA (bearish medium-term)"]

/-- Fixed-point rendering of a rational with one decimal digit,
modelling Python's `f"{x:.1f}"` (rounding mode approximated as round
half up; no claim depends on the rendered digits). -/
def fmtFixed1 (q : ℚ) : String :=
  let n : ℤ := round (q * 10)
  (if n < 0 then "-" else "") ++ toString (n.natAbs / 10) ++ "." ++ toString (n.natAbs % 10)

/-- Rendering of a possibly non-finite value under Python float
formatting. -/
def pfFmt1 : PF → String
  | .real q => fmtFixed1 q
  | .pinf => "inf"
  | .ninf => "-inf"
  | .nan => "nan"

/-- The RSI classification (`src/app.py:206-212`): `> 70` overbought,
`< 30` oversold, otherwise neutral with the value to one decimal
place (a NaN RSI fails both comparisons and classifies neutral). -/
def rsi_signal (rsi : PF) : String :=
  if PF.gt rsi (PF.real 70) then "overbought (RSI > 70)"
  else if PF.lt rsi (PF.real 30) then "oversold (RSI < 30)"
  else "neutral (RSI = " ++ pfFmt1 rsi ++ ")"

/-- The values interpolated into the prompt string
(`src/app.py:182-233`): data summary, 52-week figures, metadata
fields and the derived signals. -/
structure PromptData where
  symbol : String
  name : String
  latestClose : PF
  priceChange : PF
  yearHigh : PF
  yearLow : PF
  currentVsHigh : PF
  pe_ratio : ℚ
  market_cap : ℚ
  sector : String
  maSignals : List String
  rsiSignal : String
deriving DecidableEq, Repr

/-- The derivation block of `generate_investment_report`
(`src/app.py:182-233`): price change from the last two rows, 52-week
high/low over the whole supplied frame, distance from high, MA
signals and RSI classification, assembled into the prompt. -/
def buildPromptData (symbol : String) (metadata : Metadata)
    (stock_data : List BarRow) (latest prev : BarRow) : PromptData :=
  { symbol := symbol,
    name := metadata.name,
    latestClose := latest.close,
    priceChange :=
      PF.mul (PF.div (PF.sub latest.close prev.close) prev.close) (PF.real 100),
    yearHigh := seriesMax (stock_data.map BarRow.close),
    yearLow := seriesMin (stock_data.map BarRow.close),
    currentVsHigh :=
      PF.mul (PF.div (PF.sub latest.close (seriesMax (stock_data.map BarRow.close)))
        (seriesMax (stock_data.map BarRow.close))) (PF.real 100),
    pe_ratio := metadata.pe_ratio,
    market_cap := metadata.market_cap,
    sector := metadata.sector,
    maSignals := ma_signals latest,
    rsiSignal := rsi_signal latest.rsi }

/-- The `{'success': ..., ...}` dictionary returned by
`generate_investment_report`: each key optional, so that the shape
of each outcome can be stated rather than assumed. -/
structure ReportOutcome where
  success : Bool
  report : Option String
  generated_at : Option String
  error : Option String
deriving DecidableEq, Repr

/-- Result of `generate_investment_report` together with whether the
text-generation backend was invoked. -/
structure ReportResult where
  outcome : ReportOutcome
  backendCalled : Bool
deriving DecidableEq, Repr

/-- The `IndexError` message from `iloc[-1]`/`iloc[-2]` on a frame
with fewer than 2 rows. -/
def ilocErrMsg : String := "single positional indexer is out-of-bounds"

/-- The error raised when the Gemini client is not initialized
(`src/app.py:179`). -/
def noClientMsg : String :=
  "Gemini client not initialized. Please check your credentials."

/-- `generate_investment_report(symbol, stock_data, metadata)`
(`src/app.py:175-257`).  Everything runs inside one `try`: a missing
client or a frame of fewer than 2 rows raises before the backend is
reached, any backend error is caught; every raised exception is
converted by the `except` block into `{'success': False, 'error':
str(e)}`, so the function is total and no exception escapes.  `now`
is `datetime.now().isoformat()`. -/
def generate_investment_report (symbol : String) (clientInit : Bool)
    (stock_data : List BarRow) (metadata : Metadata)
    (backend : PromptData → Except String String) (now : String) : ReportResult :=
  if clientInit = false then
    ⟨⟨false, none, none, some noClientMsg⟩, false⟩
  else if stock_data.length < 2 then
    ⟨⟨false, none, none, some ilocErrMsg⟩, false⟩
  else
    match backend (buildPromptData symbol metadata stock_data
        (stock_data.getD (stock_data.length - 1) dummyRow)
        (stock_data.getD (stock_data.length - 2) dummyRow)) with
    | .ok text => ⟨⟨true, some text, some now, none⟩, true⟩
    | .error e => ⟨⟨false, none, none, some e⟩, true⟩

/-! ### Basic lemmas about the float model -/

theorem PF.gt_nan_right (x : PF) : PF.gt x PF.nan = false := by
  cases x <;> rfl

theorem PF.gt_nan_left (x : PF) : PF.gt PF.nan x = false := by
  cases x <;> rfl

/-! ### List access helpers -/

theorem getD_map_of_lt {α β : Type} (f : α → β) (l : List α) (i : ℕ)
    (h : i < l.length) (d : β) (d' : α) :
    (l.map f).getD i d = f (l.getD i d') := by
  simp [List.getD_eq_getElem?_getD, List.getElem?_map, List.getElem?_eq_getElem h]

theorem range_map_getD {α : Type} (f : ℕ → α) (n i : ℕ) (h : i < n) (d : α) :
    ((List.range n).map f).getD i d = f i := by
  rw [getD_map_of_lt f (List.range n) i (by simpa using h) d 0]
  simp [List.getD_eq_getElem?_getD, List.getElem?_range h]

theorem getD_of_take_eq {α : Type} (xs ys : List α) (i j : ℕ) (d : α)
    (h : xs.take (i + 1) = ys.take (i + 1)) (hj : j ≤ i) :
    xs.getD j d = ys.getD j d := by
  have hx' : (xs.take (i + 1))[j]? = xs[j]? := by
    rw [List.getElem?_take, if_pos (by omega)]
  have hy' : (ys.take (i + 1))[j]? = ys[j]? := by
    rw [List.getElem?_take, if_pos (by omega)]
  rw [List.getD_eq_getElem?_getD, List.getD_eq_getElem?_getD, ← hx', ← hy', h]

theorem allReal_map_real (l : List ℚ) : allReal (l.map PF.real) = some l := by
  induction l with
  | nil => rfl
  | cons q t ih =>
    simp only [List.map_cons, allReal, List.mapM_cons] at ih ⊢
    rw [show PF.toReal? (PF.real q) = some q from rfl]
    simp_all

/-- Closed form of the pandas rolling mean at an index where every
window element is a finite value. -/
theorem rollingMeanAt_eq (w : ℕ) (g : ℕ → ℚ) (xs : List PF) (i : ℕ)
    (hi : w - 1 ≤ i)
    (hval : ∀ k, k < w → xs.getD (i + 1 - w + k) PF.nan = PF.real (g k)) :
    rollingMeanAt w xs i = PF.real (((List.range w).map g).sum / (w : ℚ)) := by
  unfold rollingMeanAt
  rw [if_neg (by omega)]
  have hwin : windowAt w xs i = ((List.range w).map g).map PF.real := by
    unfold windowAt
    rw [List.map_map]
    exact List.map_congr_left (fun k hk => hval k (List.mem_range.mp hk))
  rw [hwin, allReal_map_real]

/-- A rolling mean over a window not yet full is NaN. -/
theorem rollingMeanAt_undef (w : ℕ) (xs : List PF) (i : ℕ) (hi : i + 1 < w) :
    rollingMeanAt w xs i = PF.nan := by
  unfold rollingMeanAt
  rw [if_pos hi]

/-- The slice `l[i-w+1 .. i]` written with take/drop equals the
window written by indexed reads. -/
theorem slice_eq_range_map (l : List ℚ) (w i : ℕ) (hw : 1 ≤ w) (hi : w - 1 ≤ i)
    (hlen : i < l.length) :
    (l.take (i + 1)).drop (i + 1 - w)
      = (List.range w).map (fun k => l.getD (i + 1 - w + k) 0) := by
  apply List.ext_getElem?
  intro j
  rcases Nat.lt_or_ge j w with hj | hj
  · rw [List.getElem?_drop, List.getElem?_take, if_pos (by omega)]
    have hidx : i + 1 - w + j < l.length := by omega
    rw [List.getElem?_map, List.getElem?_range hj]
    simp [List.getElem?_eq_getElem hidx, List.getD_eq_getElem?_getD]
  · have h1 : ((l.take (i + 1)).drop (i + 1 - w)).length = w := by
      simp [List.length_take]
      omega
    have h2 : ((List.range w).map (fun k => l.getD (i + 1 - w + k) 0)).length = w := by
      simp
    rw [List.getElem?_eq_none (by omega), List.getElem?_eq_none (by omega)]

/-! ### C6: cache validity -/

/-- C6: `is_cache_valid` returns true iff a cache entry exists and
the elapsed time since its last write is strictly below 24 hours;
validity is monotone towards earlier instants, and false from
`lastWritten + 24h` onward, with no reference to a market
calendar. -/
theorem c6_cache_validity (entry : Option ℚ) (now : ℚ) :
    (is_cache_valid entry now = true ↔
      ∃ m, entry = some m ∧ now - m < CACHE_TTL_HOURS) ∧
    (∀ t, t ≤ now → is_cache_valid entry now = true → is_cache_valid entry t = true) ∧
    (∀ m, entry = some m → ∀ t, m + CACHE_TTL_HOURS ≤ t →
      is_cache_valid entry t = false) := by
  refine ⟨?_, ?_, ?_⟩
  · cases entry with
    | none => simp [is_cache_valid]
    | some m => simp [is_cache_valid]
  · intro t ht h
    cases entry with
    | none => simp [is_cache_valid] at h
    | some m =>
      simp only [is_cache_valid, decide_eq_true_eq] at h ⊢
      linarith
  · intro m hm t ht
    subst hm
    simp only [is_cache_valid, decide_eq_false_iff_not, not_lt]
    linarith

/-- Witness for C6 at a concrete entry written at hour 0: still valid
at hour 10 given validity at hour 23, invalid at hour 25. -/
theorem c6_cache_validity_witness :
    is_cache_valid (some 0) 10 = true ∧ is_cache_valid (some 0) 25 = false := by
  constructor
  · refine (c6_cache_validity (some 0) 23).2.1 10 (by norm_num) ?_
    simp only [is_cache_valid, CACHE_TTL_HOURS, decide_eq_true_eq]
    norm_num
  · exact (c6_cache_validity (some 0) 25).2.2 0 rfl 25 (by norm_num [CACHE_TTL_HOURS])

/-! ### C7: metadata resolver fallback -/

/-- C7: on any upstream failure the metadata resolver returns (never
raises — the embedding is a total function) the fallback record:
sector and industry `"N/A"`, market cap, P/E ratio, dividend yield
and 52-week high/low all 0, and the display name from the static
registry, or the raw symbol when unregistered. -/
theorem c7_metadata_fallback (symbol e : String) :
    get_stock_metadata symbol (.error e) =
      { name := registryName symbol, sector := "N/A", industry := "N/A",
        market_cap := 0, pe_ratio := 0, dividend_yield := 0,
        w52_high := 0, w52_low := 0 } ∧
    (SUPPORTED_STOCKS.lookup symbol = none →
      (get_stock_metadata symbol (.error e)).name = symbol) ∧
    (∀ n, SUPPORTED_STOCKS.lookup symbol = some n →
      (get_stock_metadata symbol (.error e)).name = n) := by
  refine ⟨rfl, ?_, ?_⟩
  · intro h
    simp [get_stock_metadata, registryName, h]
  · intro n h
    simp [get_stock_metadata, registryName, h]

/-- Witness for C7 at an unregistered symbol and a registered one. -/
theorem c7_metadata_fallback_witness :
    (get_stock_metadata "FOO.NS" (.error "boom")).name = "FOO.NS" ∧
    (get_stock_metadata "INFY.NS" (.error "boom")).name = "Infosys" ∧
    (get_stock_metadata "FOO.NS" (.error "boom")).sector = "N/A" := by
  refine ⟨?_, ?_, ?_⟩
  · exact (c7_metadata_fallback "FOO.NS" "boom").2.1 (by decide)
  · exact (c7_metadata_fallback "INFY.NS" "boom").2.2 "Infosys" (by decide)
  · exact congrArg Metadata.sector (c7_metadata_fallback "FOO.NS" "boom").1

/-! ### C5: undefined MA classifies as "below" -/

/-- C5: when the latest bar's MA20 (resp. MA50) is undefined (NaN),
the `>` comparison is false and the synthesizer emits the "below
20-day MA (bearish short-term)" (resp. "below 50-day MA (bearish
medium-term)") signal; the signal list always has both entries, and
it is the list embedded in the prompt. -/
theorem c5_nan_ma_below (latest : BarRow) (symbol : String) (metadata : Metadata)
    (frame : List BarRow) (prev : BarRow) :
    (buildPromptData symbol metadata frame latest prev).maSignals = ma_signals latest ∧
    (ma_signals latest).length = 2 ∧
    (latest.ma20 = PF.nan →
      (ma_signals latest).getD 0 "" = "below 20-day MA (bearish short-term)") ∧
    (latest.ma50 = PF.nan →
      (ma_signals latest).getD 1 "" = "below 50-day MA (bearish medium-term)") := by
  refine ⟨rfl, rfl, ?_, ?_⟩
  · intro h
    simp [ma_signals, h, PF.gt_nan_right]
  · intro h
    simp [ma_signals, h, PF.gt_nan_right]

/-- Witness for C5 at a concrete latest bar with both MAs NaN. -/
theorem c5_nan_ma_below_witness :
    (ma_signals ⟨PF.real 100, PF.nan, PF.nan, PF.real 50⟩).getD 0 ""
      = "below 20-day MA (bearish short-term)" ∧
    (ma_signals ⟨PF.real 100, PF.nan, PF.nan, PF.real 50⟩).getD 1 ""
      = "below 50-day MA (bearish medium-term)" := by
  constructor
  · exact (c5_nan_ma_below ⟨PF.real 100, PF.nan, PF.nan, PF.real 50⟩ "TCS.NS"
      (get_stock_metadata "TCS.NS" (.error "")) [] dummyRow).2.2.1 rfl
  · exact (c5_nan_ma_below ⟨PF.real 100, PF.nan, PF.nan, PF.real 50⟩ "TCS.NS"
      (get_stock_metadata "TCS.NS" (.error "")) [] dummyRow).2.2.2 rfl

/-! ### C4: fewer than 2 bars -/

/-- C4: on a frame with fewer than 2 bars, report synthesis returns
a `success = false` outcome and never invokes the text-generation
backend; the embedding is a total function, so no exception escapes
the component. -/
theorem c4_insufficient_bars (symbol : String) (clientInit : Bool)
    (stock_data : List BarRow) (metadata : Metadata)
    (backend : PromptData → Except String String) (now : String)
    (h : stock_data.length < 2) :
    (generate_investment_report symbol clientInit stock_data metadata
      backend now).outcome.success = false ∧
    (generate_investment_report symbol clientInit stock_data metadata
      backend now).backendCalled = false := by
  cases clientInit with
  | false => simp [generate_investment_report]
  | true => simp [generate_investment_report, h]

/-- Witness for C4: a one-bar frame with an initialized client. -/
theorem c4_insufficient_bars_witness :
    (generate_investment_report "INFY.NS" true [dummyRow]
      (get_stock_metadata "INFY.NS" (.error "")) (fun _ => .ok "report")
      "2026-01-01").outcome.success = false ∧
    (generate_investment_report "INFY.NS" true [dummyRow]
      (get_stock_metadata "INFY.NS" (.error "")) (fun _ => .ok "report")
      "2026-01-01").backendCalled = false :=
  c4_insufficient_bars "INFY.NS" true [dummyRow]
    (get_stock_metadata "INFY.NS" (.error "")) (fun _ => .ok "report")
    "2026-01-01" (by decide)

/-! ### C8: report outcome is always one of two tagged shapes -/

/-- C8: report synthesis always returns exactly one of the two
tagged outcomes — `{success: true, report, generated_at}` or
`{success: false, error}` — never partially populated; when every
backend invocation fails, the outcome is `{success: false, error:
<message>}` with the backend's message; an uninitialized client
yields `{success: false, error: <the client message>}` without the
backend ever being invoked; and (the embedding being a total
function) the raw backend exception never propagates. -/
theorem c8_outcome_tagged (symbol : String) (clientInit : Bool)
    (stock_data : List BarRow) (metadata : Metadata)
    (backend : PromptData → Except String String) (now : String) :
    (((generate_investment_report symbol clientInit stock_data metadata
        backend now).outcome.success = true ∧
      (∃ t, (generate_investment_report symbol clientInit stock_data metadata
        backend now).outcome.report = some t) ∧
      (∃ g, (generate_investment_report symbol clientInit stock_data metadata
        backend now).outcome.generated_at = some g) ∧
      (generate_investment_report symbol clientInit stock_data metadata
        backend now).outcome.error = none) ∨
     ((generate_investment_report symbol clientInit stock_data metadata
        backend now).outcome.success = false ∧
      (generate_investment_report symbol clientInit stock_data metadata
        backend now).outcome.report = none ∧
      (generate_investment_report symbol clientInit stock_data metadata
        backend now).outcome.generated_at = none ∧
      ∃ e, (generate_investment_report symbol clientInit stock_data metadata
        backend now).outcome.error = some e)) ∧
    (∀ e, clientInit = true → 2 ≤ stock_data.length →
      (∀ p, backend p = .error e) →
      generate_investment_report symbol clientInit stock_data metadata backend now
        = ⟨⟨false, none, none, some e⟩, true⟩) ∧
    (clientInit = false →
      generate_investment_report symbol clientInit stock_data metadata backend now
        = ⟨⟨false, none, none, some noClientMsg⟩, false⟩) := by
  refine ⟨?_, ?_, ?_⟩
  · unfold generate_investment_report
    split
    · right; simp
    · split
      · right; simp
      · cases hb : backend (buildPromptData symbol metadata stock_data
            (stock_data.getD (stock_data.length - 1) dummyRow)
            (stock_data.getD (stock_data.length - 2) dummyRow)) with
        | ok t => left; simp
        | error e => right; simp
  · intro e hc hlen hb
    have hlt : ¬ stock_data.length < 2 := by omega
    simp [generate_investment_report, hc, hlt, hb]
  · intro hc
    simp [generate_investment_report, hc]

/-- Witness for C8: a two-row frame with a backend that fails with a
quota error, and the same frame with an uninitialized client. -/
theorem c8_outcome_tagged_witness :
    (generate_investment_report "TCS.NS" true [dummyRow, dummyRow]
      (get_stock_metadata "TCS.NS" (.error "")) (fun _ => .error "quota exceeded")
      "2026-01-01"
      = ⟨⟨false, none, none, some "quota exceeded"⟩, true⟩) ∧
    (generate_investment_report "TCS.NS" false [dummyRow, dummyRow]
      (get_stock_metadata "TCS.NS" (.error "")) (fun _ => .error "quota exceeded")
      "2026-01-01"
      = ⟨⟨false, none, none, some noClientMsg⟩, false⟩) :=
  ⟨(c8_outcome_tagged "TCS.NS" true [dummyRow, dummyRow]
      (get_stock_metadata "TCS.NS" (.error "")) (fun _ => .error "quota exceeded")
      "2026-01-01").2.1 "quota exceeded" rfl (by decide) (fun _ => rfl),
   (c8_outcome_tagged "TCS.NS" false [dummyRow, dummyRow]
      (get_stock_metadata "TCS.NS" (.error "")) (fun _ => .error "quota exceeded")
      "2026-01-01").2.2 rfl⟩

/-! ### C1: fetch with bounded retry -/

/-- An upstream attempt that the retry loop treats as failed: the
call raised, or it returned an empty series. -/
def attemptFails (upstream : ℕ → Except String (List ℚ)) (j : ℕ) : Prop :=
  (∃ e, upstream j = .error e) ∨ upstream j = .ok []

theorem fetchGo_attempts_le (s : String) (u : ℕ → Except String (List ℚ)) :
    ∀ n a, (fetchGo s u a n).upstreamAttempts ≤ n := by
  intro n
  induction n with
  | zero => intro a; simp [fetchGo]
  | succ m ih =>
    intro a
    unfold fetchGo
    cases hu : u a with
    | ok df =>
      by_cases he : df.isEmpty
      · by_cases hm : m = 0
        · simp [he, hm]
        · have := ih (a + 1)
          simp only [he, if_true, hm, if_false]
          simpa using Nat.succ_le_succ this
      · simp [he]
    | error e =>
      by_cases hm : m = 0
      · simp [hm]
      · have := ih (a + 1)
        simp only [hm, if_false]
        simpa using Nat.succ_le_succ this

theorem fetchGo_success (s : String) (u : ℕ → Except String (List ℚ)) :
    ∀ n a k df, k < n → (∀ j, j < k → attemptFails u (a + j)) →
      u (a + k) = .ok df → df ≠ [] →
      fetchGo s u a n = ⟨.ok df, k + 1, [df]⟩ := by
  intro n
  induction n with
  | zero => intro a k df hk; exact absurd hk (Nat.not_lt_zero k)
  | succ m ih =>
    intro a k df hk hfail hok hne
    cases k with
    | zero =>
      have h0 : u a = .ok df := by simpa using hok
      have hemp : ¬ df.isEmpty = true := by
        simp only [List.isEmpty_iff]
        exact hne
      unfold fetchGo
      rw [h0]
      simp [hemp]
    | succ k' =>
      have hfail0 : attemptFails u a := by simpa using hfail 0 (Nat.succ_pos k')
      have hk' : k' < m := by omega
      have hshift : ∀ j, j < k' → attemptFails u (a + 1 + j) := by
        intro j hj
        have h := hfail (j + 1) (by omega)
        rwa [show a + (j + 1) = a + 1 + j by omega] at h
      have hok' : u (a + 1 + k') = .ok df := by
        rwa [show a + 1 + k' = a + (k' + 1) by omega]
      have hrec := ih (a + 1) k' df hk' hshift hok' hne
      have hm0 : m ≠ 0 := by omega
      unfold fetchGo
      rcases hfail0 with ⟨e, he⟩ | he
      · rw [he]
        simp [hm0, hrec]
      · rw [he]
        simp [hm0, hrec]

theorem fetchGo_allFail (s : String) (u : ℕ → Except String (List ℚ)) :
    ∀ n a, 1 ≤ n → (∀ j, j < n → attemptFails u (a + j)) →
      (fetchGo s u a n).upstreamAttempts = n ∧
      ∃ e, (fetchGo s u a n).result = .error (failMsg s e) := by
  intro n
  induction n with
  | zero => intro a h; omega
  | succ m ih =>
    intro a _ hfail
    have hfail0 : attemptFails u a := by simpa using hfail 0 (by omega)
    cases m with
    | zero =>
      unfold fetchGo
      rcases hfail0 with ⟨e, he⟩ | he
      · rw [he]
        exact ⟨rfl, e, rfl⟩
      · rw [he]
        exact ⟨rfl, noDataMsg s, rfl⟩
    | succ m' =>
      have hshift : ∀ j, j < m' + 1 → attemptFails u (a + 1 + j) := by
        intro j hj
        have h := hfail (j + 1) (by omega)
        rwa [show a + (j + 1) = a + 1 + j by omega] at h
      have hrec := ih (a + 1) (by omega) hshift
      unfold fetchGo
      rcases hfail0 with ⟨e, he⟩ | he
      · rw [he]
        simp only [show m' + 1 ≠ 0 by omega, if_false]
        exact ⟨by simp [hrec.1], hrec.2⟩
      · rw [he]
        simp only [List.isEmpty_nil, if_true, show m' + 1 ≠ 0 by omega, if_false]
        exact ⟨by simp [hrec.1], hrec.2⟩

/-- C1: with an invalid cache, the fetch makes at most 3 upstream
attempts; an empty returned series is treated like a raised error
(retried, not returned); on the first success at attempt `k < 3`
(0-based) no further attempt is made and the series is the one cache
write of the run, performed before returning it; on 3 sustained
empty/error responses the fetch fails with the message carrying the
symbol and the attempt count. -/
theorem c1_fetch_retry (symbol : String) (cache : Option (ℚ × List ℚ)) (now : ℚ)
    (upstream : ℕ → Except String (List ℚ))
    (hcache : is_cache_valid (cache.map Prod.fst) now = false) :
    (fetch_stock_data symbol cache now upstream).upstreamAttempts ≤ max_retries ∧
    (∀ k df, k < max_retries → (∀ j, j < k → attemptFails upstream j) →
      upstream k = .ok df → df ≠ [] →
      fetch_stock_data symbol cache now upstream = ⟨.ok df, k + 1, [df]⟩) ∧
    ((∀ j, j < max_retries → attemptFails upstream j) →
      (fetch_stock_data symbol cache now upstream).upstreamAttempts = max_retries ∧
      ∃ e, (fetch_stock_data symbol cache now upstream).result
        = .error (failMsg symbol e)) := by
  unfold fetch_stock_data
  rw [hcache]
  simp only [Bool.false_eq_true, if_false]
  refine ⟨fetchGo_attempts_le symbol upstream max_retries 0, ?_, ?_⟩
  · intro k df hk hfail hok hne
    exact fetchGo_success symbol upstream max_retries 0 k df hk
      (fun j hj => by simpa using hfail j hj) (by simpa using hok) hne
  · intro hfail
    exact fetchGo_allFail symbol upstream max_retries 0 (by norm_num [max_retries])
      (fun j hj => by simpa using hfail j hj)

/-- Witness for C1: no cache entry, first attempt times out, second
returns a one-bar series — two attempts, one cache write, success. -/
theorem c1_fetch_retry_witness :
    fetch_stock_data "TCS.NS" none 0
      (fun j => if j = 0 then .error "timeout" else .ok [1])
      = ⟨.ok [1], 2, [[1]]⟩ := by
  refine (c1_fetch_retry "TCS.NS" none 0 _ rfl).2.1 1 [1]
    (by norm_num [max_retries]) ?_ rfl (by simp)
  intro j hj
  have hj0 : j = 0 := by omega
  subst hj0
  exact Or.inl ⟨"timeout", rfl⟩

/-! ### C3: moving averages -/

/-- The moving-average column for window `w` over a finite-valued
close series: defined exactly from index `w - 1` on, where it is the
arithmetic mean of the window slice, NaN (undefined) before. -/
theorem rollingMean_real_spec (w : ℕ) (hw : 1 ≤ w) (closes : List ℚ) (i : ℕ)
    (hi : i < closes.length) :
    (w - 1 ≤ i →
      (rollingMean w (closes.map PF.real)).getD i PF.nan
        = PF.real ((((closes.take (i + 1)).drop (i + 1 - w)).sum) / (w : ℚ))) ∧
    (i < w - 1 →
      (rollingMean w (closes.map PF.real)).getD i PF.nan = PF.nan) := by
  have hlen : i < (closes.map PF.real).length := by simpa using hi
  have hcol : (rollingMean w (closes.map PF.real)).getD i PF.nan
      = rollingMeanAt w (closes.map PF.real) i := by
    unfold rollingMean
    exact range_map_getD _ _ i hlen _
  constructor
  · intro hwi
    rw [hcol, rollingMeanAt_eq w (fun k => closes.getD (i + 1 - w + k) 0)
      (closes.map PF.real) i hwi ?_]
    · rw [slice_eq_range_map closes w i hw hwi hi]
    · intro k hk
      exact getD_map_of_lt PF.real closes (i + 1 - w + k) (by omega) PF.nan 0
  · intro hwi
    rw [hcol, rollingMeanAt_undef w _ i (by omega)]

/-- C3: for each of the windows 20, 50 and 200, the moving-average
column at index `i` is defined iff `i ≥ w - 1`, in which case it is
the arithmetic mean of `close[i-w+1 .. i]`; for `i < w - 1` it is
NaN (undefined), never zero-filled. -/
theorem c3_moving_averages (closes : List ℚ) (w : ℕ) (col : List PF)
    (hcol : (w = 20 ∧ col = (calculate_moving_averages closes).ma20) ∨
            (w = 50 ∧ col = (calculate_moving_averages closes).ma50) ∨
            (w = 200 ∧ col = (calculate_moving_averages closes).ma200))
    (i : ℕ) (hi : i < closes.length) :
    (w - 1 ≤ i →
      col.getD i PF.nan
        = PF.real ((((closes.take (i + 1)).drop (i + 1 - w)).sum) / (w : ℚ))) ∧
    (i < w - 1 → col.getD i PF.nan = PF.nan) := by
  rcases hcol with ⟨hw, hc⟩ | ⟨hw, hc⟩ | ⟨hw, hc⟩ <;> subst hw <;> subst hc <;>
    exact rollingMean_real_spec _ (by norm_num) closes i hi

/-- Witness for C3: on a 2-bar series the 20-day column at index 1
is undefined. -/
theorem c3_moving_averages_witness :
    (calculate_moving_averages [1, 2]).ma20.getD 1 PF.nan = PF.nan :=
  (c3_moving_averages [1, 2] 20 (calculate_moving_averages [1, 2]).ma20
    (Or.inl ⟨rfl, rfl⟩) 1 (by norm_num)).2 (by norm_num)

/-! ### C10: derived columns never look ahead -/

theorem rollingMeanAt_congr (w : ℕ) (xs ys : List PF) (i : ℕ)
    (h : ∀ j, j ≤ i → xs.getD j PF.nan = ys.getD j PF.nan) :
    rollingMeanAt w xs i = rollingMeanAt w ys i := by
  unfold rollingMeanAt
  rcases Nat.lt_or_ge (i + 1) w with hw | hw
  · rw [if_pos hw, if_pos hw]
  · rw [if_neg (by omega), if_neg (by omega)]
    have hwin : windowAt w xs i = windowAt w ys i := by
      unfold windowAt
      apply List.map_congr_left
      intro k hk
      exact h (i + 1 - w + k) (by have := List.mem_range.mp hk; omega)
    rw [hwin]

theorem diffs_map_getD_congr (xs ys : List ℚ) (i j : ℕ) (f : PF → PF)
    (hx : i < xs.length) (hy : i < ys.length)
    (h : xs.take (i + 1) = ys.take (i + 1)) (hj : j ≤ i) :
    ((diffs (xs.map PF.real)).map f).getD j PF.nan
      = ((diffs (ys.map PF.real)).map f).getD j PF.nan := by
  have hjx : j < (diffs (xs.map PF.real)).length := by
    simp only [diffs, List.length_map, List.length_range]
    omega
  have hjy : j < (diffs (ys.map PF.real)).length := by
    simp only [diffs, List.length_map, List.length_range]
    omega
  rw [getD_map_of_lt f _ j hjx PF.nan PF.nan,
      getD_map_of_lt f _ j hjy PF.nan PF.nan]
  congr 1
  rw [show (diffs (xs.map PF.real)).getD j PF.nan = diffAt (xs.map PF.real) j from
        range_map_getD _ _ j (by simp only [List.length_map]; omega) _,
      show (diffs (ys.map PF.real)).getD j PF.nan = diffAt (ys.map PF.real) j from
        range_map_getD _ _ j (by simp only [List.length_map]; omega) _]
  have hmt : (xs.map PF.real).take (i + 1) = (ys.map PF.real).take (i + 1) := by
    rw [← List.map_take, ← List.map_take, h]
  unfold diffAt
  rcases Nat.eq_zero_or_pos j with hj0 | hj0
  · rw [if_pos hj0, if_pos hj0]
  · rw [if_neg (by omega), if_neg (by omega)]
    rw [getD_of_take_eq _ _ i j _ hmt hj, getD_of_take_eq _ _ i (j - 1) _ hmt (by omega)]

theorem rsiAt_congr (xs ys : List ℚ) (p i : ℕ)
    (hx : i < xs.length) (hy : i < ys.length)
    (h : xs.take (i + 1) = ys.take (i + 1)) :
    rsiAt xs p i = rsiAt ys p i := by
  unfold rsiAt
  rw [rollingMeanAt_congr p _ _ i
        (fun j hj => diffs_map_getD_congr xs ys i j gainOf hx hy h hj),
      rollingMeanAt_congr p _ _ i
        (fun j hj => diffs_map_getD_congr xs ys i j lossOf hx hy h hj)]

/-- C10: each derived column (MA20, MA50, MA200, RSI) at index `i`
is a function of the close values at indices at or before `i` alone:
two close series agreeing up to index `i` produce the same derived
values at `i`, whatever their later values. -/
theorem c10_no_lookahead (xs ys : List ℚ) (i : ℕ)
    (hx : i < xs.length) (hy : i < ys.length)
    (h : xs.take (i + 1) = ys.take (i + 1)) :
    (calculate_moving_averages xs).ma20.getD i PF.nan
      = (calculate_moving_averages ys).ma20.getD i PF.nan ∧
    (calculate_moving_averages xs).ma50.getD i PF.nan
      = (calculate_moving_averages ys).ma50.getD i PF.nan ∧
    (calculate_moving_averages xs).ma200.getD i PF.nan
      = (calculate_moving_averages ys).ma200.getD i PF.nan ∧
    ∀ period, (calculate_rsi xs period).getD i PF.nan
      = (calculate_rsi ys period).getD i PF.nan := by
  have hmt : (xs.map PF.real).take (i + 1) = (ys.map PF.real).take (i + 1) := by
    rw [← List.map_take, ← List.map_take, h]
  have hma : ∀ w, (rollingMean w (xs.map PF.real)).getD i PF.nan
      = (rollingMean w (ys.map PF.real)).getD i PF.nan := by
    intro w
    unfold rollingMean
    rw [range_map_getD _ _ i (by simpa using hx) _,
        range_map_getD _ _ i (by simpa using hy) _]
    exact rollingMeanAt_congr w _ _ i (fun j hj => getD_of_take_eq _ _ i j _ hmt hj)
  refine ⟨hma 20, hma 50, hma 200, ?_⟩
  intro period
  unfold calculate_rsi
  rw [range_map_getD _ _ i hx _, range_map_getD _ _ i hy _]
  exact rsiAt_congr xs ys period i hx hy h

/-- Witness for C10: series differing only after index 1 give the
same MA20 and RSI values at index 1. -/
theorem c10_no_lookahead_witness :
    (calculate_moving_averages [1, 2, 3]).ma20.getD 1 PF.nan
      = (calculate_moving_averages [1, 2, 4]).ma20.getD 1 PF.nan ∧
    (calculate_rsi [1, 2, 3] 14).getD 1 PF.nan
      = (calculate_rsi [1, 2, 4] 14).getD 1 PF.nan :=
  ⟨(c10_no_lookahead [1, 2, 3] [1, 2, 4] 1 (by norm_num) (by norm_num) rfl).1,
   (c10_no_lookahead [1, 2, 3] [1, 2, 4] 1 (by norm_num) (by norm_num) rfl).2.2.2 14⟩

/-! ### C9: prompt derivations -/

theorem PF.sub_real (a b : ℚ) : PF.sub (PF.real a) (PF.real b) = PF.real (a - b) := by
  simp [PF.sub, PF.add, PF.neg, sub_eq_add_neg]

theorem PF.add_real (a b : ℚ) : PF.add (PF.real a) (PF.real b) = PF.real (a + b) := rfl

theorem PF.mul_real (a b : ℚ) : PF.mul (PF.real a) (PF.real b) = PF.real (a * b) := rfl

theorem PF.div_real (a b : ℚ) (hb : b ≠ 0) :
    PF.div (PF.real a) (PF.real b) = PF.real (a / b) := by
  simp [PF.div, hb]

theorem foldl_max_spec (l : List ℚ) :
    ∀ a : ℚ, a ≤ l.foldl max a ∧ (∀ x ∈ l, x ≤ l.foldl max a) ∧
      (l.foldl max a = a ∨ l.foldl max a ∈ l) := by
  induction l with
  | nil => intro a; exact ⟨le_refl a, by simp, Or.inl rfl⟩
  | cons b t ih =>
    intro a
    have h := ih (max a b)
    rw [List.foldl_cons]
    refine ⟨le_trans (le_max_left a b) h.1, ?_, ?_⟩
    · intro x hx
      rcases List.mem_cons.mp hx with hxb | hxt
      · rw [hxb]; exact le_trans (le_max_right a b) h.1
      · exact h.2.1 x hxt
    · rcases h.2.2 with heq | hmem
      · rcases max_choice a b with hab | hab
        · left; rw [heq, hab]
        · right; rw [heq, hab]; exact List.mem_cons_self b t
      · right; exact List.mem_cons_of_mem b hmem

theorem foldl_min_spec (l : List ℚ) :
    ∀ a : ℚ, l.foldl min a ≤ a ∧ (∀ x ∈ l, l.foldl min a ≤ x) ∧
      (l.foldl min a = a ∨ l.foldl min a ∈ l) := by
  induction l with
  | nil => intro a; exact ⟨le_refl a, by simp, Or.inl rfl⟩
  | cons b t ih =>
    intro a
    have h := ih (min a b)
    rw [List.foldl_cons]
    refine ⟨le_trans h.1 (min_le_left a b), ?_, ?_⟩
    · intro x hx
      rcases List.mem_cons.mp hx with hxb | hxt
      · rw [hxb]; exact le_trans h.1 (min_le_right a b)
      · exact h.2.1 x hxt
    · rcases h.2.2 with heq | hmem
      · rcases min_choice a b with hab | hab
        · left; rw [heq, hab]
        · right; rw [heq, hab]; exact List.mem_cons_self b t
      · right; exact List.mem_cons_of_mem b hmem

theorem filterMap_toReal_map_real (l : List ℚ) :
    (l.map PF.real).filterMap PF.toReal? = l := by
  rw [List.filterMap_map]
  have h : (PF.toReal? ∘ PF.real) = some := by
    funext q; rfl
  rw [h, List.filterMap_some]

theorem seriesMax_map_real (closes : List ℚ) (hne : closes ≠ []) :
    ∃ H, seriesMax (closes.map PF.real) = PF.real H ∧ H ∈ closes ∧
      ∀ x ∈ closes, x ≤ H := by
  unfold seriesMax
  rw [filterMap_toReal_map_real]
  cases closes with
  | nil => exact absurd rfl hne
  | cons q qs =>
    have h := foldl_max_spec qs q
    refine ⟨qs.foldl max q, rfl, ?_, ?_⟩
    · rcases h.2.2 with heq | hmem
      · rw [heq]; exact List.mem_cons_self q qs
      · exact List.mem_cons_of_mem q hmem
    · intro x hx
      rcases List.mem_cons.mp hx with hxq | hxt
      · rw [hxq]; exact h.1
      · exact h.2.1 x hxt

theorem seriesMin_map_real (closes : List ℚ) (hne : closes ≠ []) :
    ∃ L, seriesMin (closes.map PF.real) = PF.real L ∧ L ∈ closes ∧
      ∀ x ∈ closes, L ≤ x := by
  unfold seriesMin
  rw [filterMap_toReal_map_real]
  cases closes with
  | nil => exact absurd rfl hne
  | cons q qs =>
    have h := foldl_min_spec qs q
    refine ⟨qs.foldl min q, rfl, ?_, ?_⟩
    · rcases h.2.2 with heq | hmem
      · rw [heq]; exact List.mem_cons_self q qs
      · exact List.mem_cons_of_mem q hmem
    · intro x hx
      rcases List.mem_cons.mp hx with hxq | hxt
      · rw [hxq]; exact h.1
      · exact h.2.1 x hxt

/-- C9: for a frame with at least 2 finite-valued bars, the
synthesizer computes `priceChangePct = (latestClose - previousClose)
/ previousClose * 100`, `yearHigh`/`yearLow` as the maximum/minimum
of close over the full supplied frame, and `distanceFromHighPct =
(latestClose - yearHigh) / yearHigh * 100`. -/
theorem c9_report_derivations (symbol : String) (metadata : Metadata)
    (stock_data : List BarRow) (closes : List ℚ)
    (hclose : stock_data.map BarRow.close = closes.map PF.real)
    (hlen : 2 ≤ stock_data.length)
    (latest prev : BarRow)
    (hlatest : latest = stock_data.getD (stock_data.length - 1) dummyRow)
    (hprev : prev = stock_data.getD (stock_data.length - 2) dummyRow)
    (hpc : closes.getD (closes.length - 2) 0 ≠ 0) :
    (buildPromptData symbol metadata stock_data latest prev).priceChange
      = PF.real ((closes.getD (closes.length - 1) 0
          - closes.getD (closes.length - 2) 0)
          / closes.getD (closes.length - 2) 0 * 100) ∧
    ∃ H L, (buildPromptData symbol metadata stock_data latest prev).yearHigh
        = PF.real H ∧
      H ∈ closes ∧ (∀ x ∈ closes, x ≤ H) ∧
      (buildPromptData symbol metadata stock_data latest prev).yearLow
        = PF.real L ∧
      L ∈ closes ∧ (∀ x ∈ closes, L ≤ x) ∧
      (H ≠ 0 →
        (buildPromptData symbol metadata stock_data latest prev).currentVsHigh
          = PF.real ((closes.getD (closes.length - 1) 0 - H) / H * 100)) := by
  have hlen2 : closes.length = stock_data.length := by
    have h := congrArg List.length hclose
    simpa using h.symm
  have hrow : ∀ n, n < stock_data.length →
      (stock_data.getD n dummyRow).close = PF.real (closes.getD n 0) := by
    intro n hn
    rw [← getD_map_of_lt BarRow.close stock_data n hn PF.nan dummyRow, hclose,
        getD_map_of_lt PF.real closes n (by omega) PF.nan 0]
  have hlc : latest.close = PF.real (closes.getD (closes.length - 1) 0) := by
    rw [hlatest, hrow (stock_data.length - 1) (by omega), hlen2]
  have hpcr : prev.close = PF.real (closes.getD (closes.length - 2) 0) := by
    rw [hprev, hrow (stock_data.length - 2) (by omega), hlen2]
  have hne : closes ≠ [] := by
    intro h
    rw [h] at hlen2
    simp at hlen2
    omega
  obtain ⟨H, hH, hHmem, hHub⟩ := seriesMax_map_real closes hne
  obtain ⟨L, hL, hLmem, hLlb⟩ := seriesMin_map_real closes hne
  refine ⟨?_, H, L, ?_, hHmem, hHub, ?_, hLmem, hLlb, ?_⟩
  · simp only [buildPromptData]
    rw [hlc, hpcr, PF.sub_real, PF.div_real _ _ hpc, PF.mul_real]
  · simp only [buildPromptData]
    rw [hclose, hH]
  · simp only [buildPromptData]
    rw [hclose, hL]
  · intro hH0
    simp only [buildPromptData]
    rw [hclose, hH, hlc, PF.sub_real, PF.div_real _ _ hH0, PF.mul_real]

/-- Witness for C9 on a concrete 2-bar frame with closes 100, 105. -/
theorem c9_report_derivations_witness :
    (buildPromptData "TCS.NS" (get_stock_metadata "TCS.NS" (.error ""))
      [⟨PF.real 100, PF.nan, PF.nan, PF.nan⟩, ⟨PF.real 105, PF.nan, PF.nan, PF.nan⟩]
      ⟨PF.real 105, PF.nan, PF.nan, PF.nan⟩
      ⟨PF.real 100, PF.nan, PF.nan, PF.nan⟩).priceChange = PF.real 5 := by
  have h := (c9_report_derivations "TCS.NS" (get_stock_metadata "TCS.NS" (.error ""))
    [⟨PF.real 100, PF.nan, PF.nan, PF.nan⟩, ⟨PF.real 105, PF.nan, PF.nan, PF.nan⟩]
    [100, 105] rfl (by norm_num)
    ⟨PF.real 105, PF.nan, PF.nan, PF.nan⟩ ⟨PF.real 100, PF.nan, PF.nan, PF.nan⟩
    rfl rfl (by norm_num [List.getD])).1
  rw [h]
  norm_num [List.getD]

/-! ### C2: RSI helper lemmas -/

theorem gainOf_real (d : ℚ) : gainOf (PF.real d) = PF.real (max d 0) := by
  by_cases h : 0 < d
  · simp [gainOf, PF.gt, h, max_eq_left h.le]
  · simp [gainOf, PF.gt, h, max_eq_right (not_lt.mp h)]

theorem lossOf_real (d : ℚ) : lossOf (PF.real d) = PF.real (max (-d) 0) := by
  by_cases h : d < 0
  · simp [lossOf, PF.lt, PF.gt, h, PF.neg,
      max_eq_left (by linarith : (0:ℚ) ≤ -d)]
  · simp [lossOf, PF.lt, PF.gt, h, PF.neg,
      max_eq_right (by linarith [not_lt.mp h] : -d ≤ 0)]

theorem sum_map_nonneg (l : List ℚ) (f : ℚ → ℚ) (h : ∀ x ∈ l, 0 ≤ f x) :
    0 ≤ (l.map f).sum :=
  List.sum_nonneg (fun x hx => by
    obtain ⟨y, hy, rfl⟩ := List.mem_map.mp hx
    exact h y hy)

theorem sum_map_pos (f : ℚ → ℚ) :
    ∀ (l : List ℚ), (∀ x ∈ l, 0 ≤ f x) → ∀ x, x ∈ l → 0 < f x →
      0 < (l.map f).sum := by
  intro l
  induction l with
  | nil => intro _ x hx; simp at hx
  | cons a t ih =>
    intro h x hx hfx
    rw [List.map_cons, List.sum_cons]
    have ht : ∀ y ∈ t, 0 ≤ f y := fun y hy => h y (List.mem_cons_of_mem a hy)
    rcases List.mem_cons.mp hx with hxa | hxt
    · have ha : 0 < f a := by rw [← hxa]; exact hfx
      have hs : 0 ≤ (t.map f).sum := sum_map_nonneg t f ht
      linarith
    · have ha : 0 ≤ f a := h a (List.mem_cons_self a t)
      have := ih ht x hxt hfx
      linarith

theorem sum_map_eq_zero_iff (f : ℚ → ℚ) :
    ∀ (l : List ℚ), (∀ x ∈ l, 0 ≤ f x) →
      ((l.map f).sum = 0 ↔ ∀ x ∈ l, f x = 0) := by
  intro l
  induction l with
  | nil => intro _; simp
  | cons a t ih =>
    intro h
    rw [List.map_cons, List.sum_cons]
    have ht : ∀ y ∈ t, 0 ≤ f y := fun y hy => h y (List.mem_cons_of_mem a hy)
    have ha : 0 ≤ f a := h a (List.mem_cons_self a t)
    have hs : 0 ≤ (t.map f).sum := sum_map_nonneg t f ht
    have iht := ih ht
    constructor
    · intro h0
      have hfa : f a = 0 := by linarith
      have hS : (t.map f).sum = 0 := by linarith
      intro x hx
      rcases List.mem_cons.mp hx with hxa | hxt
      · rw [hxa]; exact hfa
      · exact (iht.mp hS) x hxt
    · intro hall
      rw [hall a (List.mem_cons_self a t),
          iht.mpr (fun y hy => hall y (List.mem_cons_of_mem a hy))]
      norm_num

theorem gain_window_val (closes : List ℚ) (p i : ℕ) (hp : 1 ≤ p) (hi : p ≤ i)
    (hlen : i < closes.length) (k : ℕ) (hk : k < p) :
    ((diffs (closes.map PF.real)).map gainOf).getD (i + 1 - p + k) PF.nan
      = PF.real (max (closes.getD (i + 1 - p + k) 0 - closes.getD (i - p + k) 0) 0) := by
  have hidx : i + 1 - p + k < closes.length := by omega
  have hlen' : i + 1 - p + k < (diffs (closes.map PF.real)).length := by
    simp only [diffs, List.length_map, List.length_range]
    simpa using hidx
  rw [getD_map_of_lt gainOf _ _ hlen' PF.nan PF.nan]
  rw [show (diffs (closes.map PF.real)).getD (i + 1 - p + k) PF.nan
        = diffAt (closes.map PF.real) (i + 1 - p + k) from
      range_map_getD _ _ _ (by simpa using hidx) _]
  unfold diffAt
  rw [if_neg (by omega)]
  rw [getD_map_of_lt PF.real closes _ hidx PF.nan 0,
      getD_map_of_lt PF.real closes _ (by omega) PF.nan 0]
  rw [PF.sub_real, show i + 1 - p + k - 1 = i - p + k by omega]
  exact gainOf_real _

theorem loss_window_val (closes : List ℚ) (p i : ℕ) (hp : 1 ≤ p) (hi : p ≤ i)
    (hlen : i < closes.length) (k : ℕ) (hk : k < p) :
    ((diffs (closes.map PF.real)).map lossOf).getD (i + 1 - p + k) PF.nan
      = PF.real (max (-(closes.getD (i + 1 - p + k) 0 - closes.getD (i - p + k) 0)) 0) := by
  have hidx : i + 1 - p + k < closes.length := by omega
  have hlen' : i + 1 - p + k < (diffs (closes.map PF.real)).length := by
    simp only [diffs, List.length_map, List.length_range]
    simpa using hidx
  rw [getD_map_of_lt lossOf _ _ hlen' PF.nan PF.nan]
  rw [show (diffs (closes.map PF.real)).getD (i + 1 - p + k) PF.nan
        = diffAt (closes.map PF.real) (i + 1 - p + k) from
      range_map_getD _ _ _ (by simpa using hidx) _]
  unfold diffAt
  rw [if_neg (by omega)]
  rw [getD_map_of_lt PF.real closes _ hidx PF.nan 0,
      getD_map_of_lt PF.real closes _ (by omega) PF.nan 0]
  rw [PF.sub_real, show i + 1 - p + k - 1 = i - p + k by omega]
  exact lossOf_real _

/-- Closed form of the RSI at an index with a full window of real
deltas: NaN when the window's gains and losses both average zero
(`0/0`), 100 when only the losses do (`x/0`, `x > 0`), and the
textbook value otherwise. -/
theorem rsiAt_closed (closes : List ℚ) (p i : ℕ)
    (hp : 1 ≤ p) (hi : p ≤ i) (hlen : i < closes.length) :
    rsiAt closes p i =
      (if ((deltaWindow closes p i).map (fun d => max (-d) 0)).sum = 0 then
        (if ((deltaWindow closes p i).map (fun d => max d 0)).sum = 0 then PF.nan
         else PF.real 100)
       else PF.real (100 - 100 / (1 +
         (((deltaWindow closes p i).map (fun d => max d 0)).sum / (p : ℚ))
           / (((deltaWindow closes p i).map (fun d => max (-d) 0)).sum / (p : ℚ))))) := by
  have hp' : (0:ℚ) < (p : ℚ) := by exact_mod_cast Nat.lt_of_lt_of_le Nat.zero_lt_one hp
  have hg : rollingMeanAt p ((diffs (closes.map PF.real)).map gainOf) i
      = PF.real (((deltaWindow closes p i).map (fun d => max d 0)).sum / (p : ℚ)) := by
    rw [rollingMeanAt_eq p
      (fun k => max (closes.getD (i + 1 - p + k) 0 - closes.getD (i - p + k) 0) 0)
      _ i (by omega) (fun k hk => gain_window_val closes p i hp hi hlen k hk)]
    congr 2
    unfold deltaWindow
    rw [List.map_map]
    rfl
  have hl : rollingMeanAt p ((diffs (closes.map PF.real)).map lossOf) i
      = PF.real (((deltaWindow closes p i).map (fun d => max (-d) 0)).sum / (p : ℚ)) := by
    rw [rollingMeanAt_eq p
      (fun k => max (-(closes.getD (i + 1 - p + k) 0 - closes.getD (i - p + k) 0)) 0)
      _ i (by omega) (fun k hk => loss_window_val closes p i hp hi hlen k hk)]
    congr 2
    unfold deltaWindow
    rw [List.map_map]
    rfl
  have hGnn : 0 ≤ ((deltaWindow closes p i).map (fun d => max d 0)).sum :=
    sum_map_nonneg _ _ (fun x _ => le_max_right x 0)
  have hLnn : 0 ≤ ((deltaWindow closes p i).map (fun d => max (-d) 0)).sum :=
    sum_map_nonneg _ _ (fun x _ => le_max_right (-x) 0)
  unfold rsiAt
  rw [hg, hl]
  by_cases hL : ((deltaWindow closes p i).map (fun d => max (-d) 0)).sum = 0
  · rw [if_pos hL, hL, zero_div]
    by_cases hG : ((deltaWindow closes p i).map (fun d => max d 0)).sum = 0
    · rw [if_pos hG, hG, zero_div]
      simp [PF.div, PF.add, PF.sub, PF.neg]
    · rw [if_neg hG]
      have hq : 0 < ((deltaWindow closes p i).map (fun d => max d 0)).sum / (p : ℚ) :=
        div_pos (lt_of_le_of_ne hGnn (Ne.symm hG)) hp'
      simp [PF.div, PF.add, PF.sub, PF.neg, hq, hq.ne']
  · rw [if_neg hL]
    have hLq : 0 < ((deltaWindow closes p i).map (fun d => max (-d) 0)).sum / (p : ℚ) :=
      div_pos (lt_of_le_of_ne hLnn (Ne.symm hL)) hp'
    rw [PF.div_real _ _ hLq.ne']
    have hx : 0 ≤ (((deltaWindow closes p i).map (fun d => max d 0)).sum / (p : ℚ))
        / (((deltaWindow closes p i).map (fun d => max (-d) 0)).sum / (p : ℚ)) :=
      div_nonneg (div_nonneg hGnn hp'.le) hLq.le
    rw [PF.add_real]
    have h1 : (0:ℚ) < 1 + (((deltaWindow closes p i).map (fun d => max d 0)).sum / (p : ℚ))
        / (((deltaWindow closes p i).map (fun d => max (-d) 0)).sum / (p : ℚ)) := by
      linarith
    rw [PF.div_real _ _ h1.ne', PF.sub_real]

theorem getD_replicate_of_lt (n j : ℕ) (a d : ℚ) (h : j < n) :
    (List.replicate n a).getD j d = a := by
  simp [List.getD_eq_getElem?_getD, List.getElem?_replicate, h]

/-- C2 (amended): at every index with at least `period + 1` bars of
history, when not every delta in the window is zero the RSI is a
finite value in `[0, 100]`; when all window deltas are non-negative
and at least one is nonzero (the mean loss is zero, the mean gain
positive) the RSI is exactly 100; when every delta in the window is
zero (mean gain and mean loss both zero) `rs = 0/0` and the RSI is
NaN, not 100; when all deltas are non-positive and at least one is
negative the RSI is exactly 0. -/
theorem c2_rsi_amended (closes : List ℚ) (period i : ℕ)
    (hp : 1 ≤ period) (hi : period ≤ i) (hlen : i < closes.length) :
    ((∃ d ∈ deltaWindow closes period i, d ≠ 0) →
      ∃ q, (calculate_rsi closes period).getD i PF.nan = PF.real q ∧
        0 ≤ q ∧ q ≤ 100) ∧
    ((∀ d ∈ deltaWindow closes period i, 0 ≤ d) →
      (∃ d ∈ deltaWindow closes period i, d ≠ 0) →
      (calculate_rsi closes period).getD i PF.nan = PF.real 100) ∧
    ((∀ d ∈ deltaWindow closes period i, d = 0) →
      (calculate_rsi closes period).getD i PF.nan = PF.nan) ∧
    ((∀ d ∈ deltaWindow closes period i, d ≤ 0) →
      (∃ d ∈ deltaWindow closes period i, d < 0) →
      (calculate_rsi closes period).getD i PF.nan = PF.real 0) := by
  have hcol : (calculate_rsi closes period).getD i PF.nan = rsiAt closes period i := by
    unfold calculate_rsi
    exact range_map_getD _ _ i hlen _
  rw [hcol, rsiAt_closed closes period i hp hi hlen]
  have hp' : (0:ℚ) < (period : ℚ) := by
    exact_mod_cast Nat.lt_of_lt_of_le Nat.zero_lt_one hp
  have hGnn : 0 ≤ ((deltaWindow closes period i).map (fun d => max d 0)).sum :=
    sum_map_nonneg _ _ (fun x _ => le_max_right x 0)
  have hLnn : 0 ≤ ((deltaWindow closes period i).map (fun d => max (-d) 0)).sum :=
    sum_map_nonneg _ _ (fun x _ => le_max_right (-x) 0)
  have hLzero : (∀ d ∈ deltaWindow closes period i, 0 ≤ d) →
      ((deltaWindow closes period i).map (fun d => max (-d) 0)).sum = 0 := by
    intro hall
    refine (sum_map_eq_zero_iff _ _ (fun x _ => le_max_right (-x) 0)).mpr ?_
    intro x hx
    have := hall x hx
    rw [max_eq_right (by linarith : -x ≤ 0)]
  have hGpos : (∀ d ∈ deltaWindow closes period i, 0 ≤ d) →
      (∃ d ∈ deltaWindow closes period i, d ≠ 0) →
      ((deltaWindow closes period i).map (fun d => max d 0)).sum ≠ 0 := by
    intro hall hex
    obtain ⟨d, hd, hdne⟩ := hex
    have hdpos : 0 < d := lt_of_le_of_ne (hall d hd) (Ne.symm hdne)
    have := sum_map_pos (fun d => max d 0) (deltaWindow closes period i)
      (fun x _ => le_max_right x 0) d hd
      (by show 0 < max d 0; rw [max_eq_left hdpos.le]; exact hdpos)
    exact this.ne'
  refine ⟨?_, ?_, ?_, ?_⟩
  · intro hex
    by_cases hL : ((deltaWindow closes period i).map (fun d => max (-d) 0)).sum = 0
    · have hall : ∀ d ∈ deltaWindow closes period i, 0 ≤ d := by
        intro x hx
        have hx0 := (sum_map_eq_zero_iff _ _
          (fun y _ => le_max_right (-y) 0)).mp hL x hx
        by_contra hneg
        push_neg at hneg
        rw [max_eq_left (by linarith : (0:ℚ) ≤ -x)] at hx0
        linarith
      rw [if_pos hL, if_neg (hGpos hall hex)]
      exact ⟨100, rfl, by norm_num, by norm_num⟩
    · rw [if_neg hL]
      have hLq : 0 < ((deltaWindow closes period i).map (fun d => max (-d) 0)).sum
          / (period : ℚ) := div_pos (lt_of_le_of_ne hLnn (Ne.symm hL)) hp'
      have hx : 0 ≤ (((deltaWindow closes period i).map (fun d => max d 0)).sum
            / (period : ℚ))
          / (((deltaWindow closes period i).map (fun d => max (-d) 0)).sum
            / (period : ℚ)) :=
        div_nonneg (div_nonneg hGnn hp'.le) hLq.le
      have h1 : (0:ℚ) < 1 + (((deltaWindow closes period i).map
            (fun d => max d 0)).sum / (period : ℚ))
          / (((deltaWindow closes period i).map (fun d => max (-d) 0)).sum
            / (period : ℚ)) := by linarith
      have hfrac_pos : 0 < 100 / (1 + (((deltaWindow closes period i).map
            (fun d => max d 0)).sum / (period : ℚ))
          / (((deltaWindow closes period i).map (fun d => max (-d) 0)).sum
            / (period : ℚ))) := by positivity
      have hfrac_le : 100 / (1 + (((deltaWindow closes period i).map
            (fun d => max d 0)).sum / (period : ℚ))
          / (((deltaWindow closes period i).map (fun d => max (-d) 0)).sum
            / (period : ℚ))) ≤ 100 :=
        div_le_self (by norm_num) (by linarith)
      exact ⟨_, rfl, by linarith, by linarith⟩
  · intro hall hex
    rw [if_pos (hLzero hall), if_neg (hGpos hall hex)]
  · intro hall
    have hL : ((deltaWindow closes period i).map (fun d => max (-d) 0)).sum = 0 :=
      hLzero (fun x hx => le_of_eq (hall x hx).symm)
    have hG : ((deltaWindow closes period i).map (fun d => max d 0)).sum = 0 := by
      refine (sum_map_eq_zero_iff _ _ (fun x _ => le_max_right x 0)).mpr ?_
      intro x hx
      rw [hall x hx]
      norm_num
    rw [if_pos hL, if_pos hG]
  · intro hall hex
    have hG : ((deltaWindow closes period i).map (fun d => max d 0)).sum = 0 := by
      refine (sum_map_eq_zero_iff _ _ (fun x _ => le_max_right x 0)).mpr ?_
      intro x hx
      exact max_eq_right (hall x hx)
    have hL : ((deltaWindow closes period i).map (fun d => max (-d) 0)).sum ≠ 0 := by
      obtain ⟨d, hd, hdneg⟩ := hex
      have := sum_map_pos (fun d => max (-d) 0) (deltaWindow closes period i)
        (fun x _ => le_max_right (-x) 0) d hd
        (by show 0 < max (-d) 0; rw [max_eq_left (by linarith : (0:ℚ) ≤ -d)]; linarith)
      exact this.ne'
    rw [if_neg hL]
    congr 1
    rw [hG]
    norm_num

/-- C2 counterexample: on a constant series (every delta in the
window zero, so the mean loss is exactly zero) the computed RSI is
NaN, not 100 — `rs = 0/0` is never special-cased. -/
theorem c2_rsi_counterexample :
    (calculate_rsi (List.replicate 15 (100:ℚ)) 14).getD 14 PF.nan = PF.nan ∧
    PF.nan ≠ PF.real 100 := by
  constructor
  · have hcol : (calculate_rsi (List.replicate 15 (100:ℚ)) 14).getD 14 PF.nan
        = rsiAt (List.replicate 15 (100:ℚ)) 14 14 := by
      unfold calculate_rsi
      exact range_map_getD _ _ 14 (by simp) _
    rw [hcol, rsiAt_closed _ 14 14 (by norm_num) (le_refl 14) (by simp)]
    have hzero : ∀ d ∈ deltaWindow (List.replicate 15 (100:ℚ)) 14 14, d = 0 := by
      intro d hd
      unfold deltaWindow at hd
      obtain ⟨k, hk, hfk⟩ := List.mem_map.mp hd
      have hk14 : k < 14 := List.mem_range.mp hk
      rw [← hfk,
        getD_replicate_of_lt 15 (14 + 1 - 14 + k) 100 0 (by omega),
        getD_replicate_of_lt 15 (14 - 14 + k) 100 0 (by omega)]
      ring
    have hL : ((deltaWindow (List.replicate 15 (100:ℚ)) 14 14).map
        (fun d => max (-d) 0)).sum = 0 := by
      refine (sum_map_eq_zero_iff _ _ (fun x _ => le_max_right (-x) 0)).mpr ?_
      intro x hx
      rw [hzero x hx]
      norm_num
    have hG : ((deltaWindow (List.replicate 15 (100:ℚ)) 14 14).map
        (fun d => max d 0)).sum = 0 := by
      refine (sum_map_eq_zero_iff _ _ (fun x _ => le_max_right x 0)).mpr ?_
      intro x hx
      rw [hzero x hx]
      norm_num
    rw [if_pos hL, if_pos hG]
  · exact fun h => PF.noConfusion h

/-- Witness for the amended C2 at a strictly rising series: all
window deltas positive, RSI exactly 100. -/
theorem c2_rsi_amended_witness :
    (calculate_rsi [100, 101, 103] 2).getD 2 PF.nan = PF.real 100 := by
  have hW : deltaWindow [100, 101, 103] 2 2 = [1, 2] := by
    unfold deltaWindow
    norm_num [List.range_succ, List.getD, List.getD_eq_getElem?_getD]
  refine (c2_rsi_amended [100, 101, 103] 2 2 (by norm_num) (le_refl 2)
    (by norm_num)).2.1 ?_ ?_
  · intro d hd
    rw [hW] at hd
    rcases List.mem_cons.mp hd with h1 | hd2
    · rw [h1]; norm_num
    · rcases List.mem_cons.mp hd2 with h2 | h3
      · rw [h2]; norm_num
      · simp at h3
  · refine ⟨1, ?_, by norm_num⟩
    rw [hW]
    exact List.mem_cons_self 1 [2]

end StockApp
